import Mathlib

/-!
Verification of the secure message ingestion pipeline of the Crypto_Project
repository (services/common/crypto_utils.py, services/main_host/app_encrypted.py,
services/patient_simulator/send_data_encrypted.py).

The Python source is shallowly embedded below.  Pure functions become Lean
functions, the mutable key store and the pipeline's in-memory state become
explicit state passing, byte strings become `List Nat`, and fallible code
returns `Option`/`Except`.  The third-party `ascon` AEAD library and Python's
`json` serialisation are not part of the repository; they are modelled from the
spec (each such definition is marked `Modelled from the spec:`).
-/

namespace CryptoProject

/-- A JSON scalar value as it occurs in a vitals payload dictionary:
either a string or an integer. -/
inductive JVal where
  | str : String → JVal
  | int : Int → JVal
deriving DecidableEq, Repr

/-- A payload dictionary (Python `dict` as produced by `json.loads`),
modelled as an insertion-ordered association list. -/
abbrev Payload := List (String × JVal)

/-- Dictionary lookup (`d.get(k)` / `k in d`). -/
def pget (p : Payload) (k : String) : Option JVal :=
  match p with
  | [] => none
  | (k', v) :: rest => if k' = k then some v else pget rest k

/-- Dictionary assignment `d[k] = v`: replaces the value when the key is
present, otherwise appends the key (Python insertion order). -/
def pset (p : Payload) (k : String) (v : JVal) : Payload :=
  match p with
  | [] => [(k, v)]
  | (k', v') :: rest => if k' = k then (k', v) :: rest else (k', v') :: pset rest k v

/-- Modelled from the spec: the value encoding used by Python's `json.dumps`
(the `json` module is standard-library code, not part of the repository).
The serialisation is modelled as a prefix-free symbol encoding: what the
claims need from it is exactly that `json.loads` inverts it. -/
def jvalEnc : JVal → List Nat
  | .str s => 0 :: s.length :: s.data.map Char.toNat
  | .int v => 1 :: (if v < 0 then 1 else 0) :: v.natAbs :: []

/-- Modelled from the spec: serialisation of a payload dictionary to
plaintext bytes (`json.dumps(payload).encode('utf-8')`). -/
def jsonDumps : Payload → List Nat
  | [] => []
  | (n, v) :: rest => n.length :: (n.data.map Char.toNat ++ (jvalEnc v ++ jsonDumps rest))

/-- Modelled from the spec: fuelled worker for `jsonLoads`. -/
def jsonLoadsAux : Nat → List Nat → Option Payload
  | _, [] => some []
  | 0, _ :: _ => none
  | fuel + 1, n :: rest =>
    let nameCodes := rest.take n
    if nameCodes.length = n then
      let name := String.mk (nameCodes.map Char.ofNat)
      match rest.drop n with
      | 0 :: m :: rest2 =>
        let sCodes := rest2.take m
        if sCodes.length = m then
          match jsonLoadsAux fuel (rest2.drop m) with
          | some p => some ((name, .str (String.mk (sCodes.map Char.ofNat))) :: p)
          | none => none
        else none
      | 1 :: sgn :: a :: rest2 =>
        match jsonLoadsAux fuel rest2 with
        | some p => some ((name, .int (if sgn = 0 then Int.ofNat a else -(Int.ofNat a))) :: p)
        | none => none
      | _ => none
    else none

/-- Modelled from the spec: deserialisation of plaintext bytes back to a
payload dictionary (`json.loads(plaintext.decode('utf-8'))`), returning
`none` where Python raises. -/
def jsonLoads (l : List Nat) : Option Payload :=
  jsonLoadsAux l.length l

theorem jsonDumps_length_ge (p : Payload) : p.length ≤ (jsonDumps p).length := by
  induction p with
  | nil => simp [jsonDumps]
  | cons hd tl ih =>
    obtain ⟨n, v⟩ := hd
    simp only [jsonDumps, List.length_cons, List.length_append]
    omega

theorem map_ofNat_toNat (l : List Char) : (l.map Char.toNat).map Char.ofNat = l := by
  induction l with
  | nil => rfl
  | cons c cs ih => simp only [List.map_cons, Char.ofNat_toNat, ih]

theorem jsonLoadsAux_dumps (p : Payload) : ∀ fuel, p.length ≤ fuel →
    jsonLoadsAux fuel (jsonDumps p) = some p := by
  induction p with
  | nil => intro fuel _; cases fuel <;> rfl
  | cons hd tl ih =>
    intro fuel hfuel
    obtain ⟨n, v⟩ := hd
    match fuel, hfuel with
    | fuel + 1, hfuel =>
      have htl : tl.length ≤ fuel := by
        simpa [Nat.succ_le_succ_iff] using hfuel
      have hname : (n.data.map Char.toNat).length = n.length := by
        rw [List.length_map]; rfl
      have hnameRT : (n.data.map Char.toNat).map Char.ofNat = n.data :=
        map_ofNat_toNat n.data
      cases v with
      | str s =>
        have hs : (s.data.map Char.toNat).length = s.length := by
          rw [List.length_map]; rfl
        have hsRT : (s.data.map Char.toNat).map Char.ofNat = s.data :=
          map_ofNat_toNat s.data
        simp only [jsonDumps, jvalEnc, jsonLoadsAux]
        rw [List.take_append_of_le_length (by omega), List.take_of_length_le (by omega),
          hname, if_pos rfl,
          List.drop_append_of_le_length (by omega), List.drop_of_length_le (by omega)]
        simp only [List.nil_append, List.cons_append]
        rw [List.take_append_of_le_length (by omega), List.take_of_length_le (by omega),
          hs, if_pos rfl,
          List.drop_append_of_le_length (by omega), List.drop_of_length_le (by omega)]
        simp only [List.nil_append]
        rw [ih fuel htl, hnameRT, hsRT]
      | int v =>
        simp only [jsonDumps, jvalEnc, jsonLoadsAux]
        rw [List.take_append_of_le_length (by omega), List.take_of_length_le (by omega),
          hname, if_pos rfl,
          List.drop_append_of_le_length (by omega), List.drop_of_length_le (by omega)]
        simp only [List.nil_append, List.cons_append]
        rw [ih fuel htl, hnameRT]
        by_cases hv : v < 0
        · rw [if_pos hv]
          simp only [if_neg (by omega : ¬ (1 : Nat) = 0)]
          have hval : -(Int.ofNat v.natAbs) = v := by
            simp only [Int.ofNat_eq_natCast]
            omega
          rw [hval]
        · rw [if_neg hv]
          simp only [if_pos rfl]
          have hval : Int.ofNat v.natAbs = v := by
            simp only [Int.ofNat_eq_natCast]
            omega
          rw [hval]
          rfl

/-- `json.loads` inverts `json.dumps` on every payload dictionary. -/
theorem jsonLoads_dumps (p : Payload) : jsonLoads (jsonDumps p) = some p :=
  jsonLoadsAux_dumps p _ (jsonDumps_length_ge p)

/-! ### The Ascon-128 AEAD primitive

`crypto_utils.py` delegates to the third-party `ascon` library
(`ascon.encrypt`/`ascon.decrypt`), which is not part of this repository.
It is modelled from the spec (§4.2): a 16-byte key and 16-byte nonce,
empty associated data, and a combined ciphertext-with-tag whose last 16
bytes are an authentication tag; decryption fails whenever the tag does
not verify, and any single-bit change to ciphertext or tag breaks
verification.  The model uses a keystream XOR for the body and a
16-lane XOR-fold tag, which realises exactly those spec properties. -/

/-- Modelled from the spec: keystream byte `i` derived from key and nonce. -/
def ksByte (key nonce : List Nat) (i : Nat) : Nat :=
  key.getD (i % 16) 0 ^^^ nonce.getD (i % 16) 0

/-- Modelled from the spec: XOR a byte list against the keystream,
starting at stream position `i`. -/
def xorKs (key nonce : List Nat) : Nat → List Nat → List Nat
  | _, [] => []
  | i, b :: rest => (b ^^^ ksByte key nonce i) :: xorKs key nonce (i + 1) rest

theorem xorKs_length (key nonce : List Nat) : ∀ i l, (xorKs key nonce i l).length = l.length := by
  intro i l
  induction l generalizing i with
  | nil => rfl
  | cons b rest ih => simp [xorKs, ih]

theorem xorKs_xorKs (key nonce : List Nat) : ∀ i l, xorKs key nonce i (xorKs key nonce i l) = l := by
  intro i l
  induction l generalizing i with
  | nil => rfl
  | cons b rest ih =>
    simp only [xorKs, ih, List.cons.injEq, and_true]
    rw [Nat.xor_assoc, Nat.xor_self, Nat.xor_zero]

/-- Modelled from the spec: XOR-fold of the bytes whose position is
congruent to `j` modulo 16, scanning from stream position `i`. -/
def tagAux (j : Nat) : Nat → List Nat → Nat
  | _, [] => 0
  | i, b :: rest => (if i % 16 = j then b else 0) ^^^ tagAux j (i + 1) rest

/-- Modelled from the spec: byte `j` of the authentication tag. -/
def tagByte (key nonce ct : List Nat) (j : Nat) : Nat :=
  key.getD j 0 ^^^ nonce.getD j 0 ^^^ tagAux j 0 ct

/-- Modelled from the spec: the 16-byte authentication tag over the
ciphertext body. -/
def tag16 (key nonce ct : List Nat) : List Nat :=
  (List.range 16).map (tagByte key nonce ct)

theorem tag16_length (key nonce ct : List Nat) : (tag16 key nonce ct).length = 16 := by
  simp [tag16]

theorem tag16_getD (key nonce ct : List Nat) (j : Nat) (h : j < 16) :
    (tag16 key nonce ct).getD j 0 = tagByte key nonce ct j := by
  simp [tag16, List.getD_eq_getElem?_getD, List.getElem?_map, List.getElem?_range h]

/-- Modelled from the spec: `ascon.encrypt(key, nonce, ad, plaintext)` —
returns the ciphertext body followed by the 16-byte tag. -/
def asconEncrypt (key nonce _ad pt : List Nat) : List Nat :=
  let body := xorKs key nonce 0 pt
  body ++ tag16 key nonce body

/-- Modelled from the spec: `ascon.decrypt(key, nonce, ad, ciphertext)` —
verifies the trailing 16-byte tag, returning `none` (an exception in
Python) whenever it does not match, and the plaintext otherwise. -/
def asconDecrypt (key nonce _ad ct : List Nat) : Option (List Nat) :=
  if ct.length < 16 then none
  else
    let body := ct.take (ct.length - 16)
    let tg := ct.drop (ct.length - 16)
    if tg = tag16 key nonce body then some (xorKs key nonce 0 body) else none

theorem asconEncrypt_length (key nonce ad pt : List Nat) :
    (asconEncrypt key nonce ad pt).length = pt.length + 16 := by
  simp [asconEncrypt, xorKs_length, tag16_length]

theorem asconDecrypt_encrypt (key nonce ad pt : List Nat) :
    asconDecrypt key nonce ad (asconEncrypt key nonce ad pt) = some pt := by
  have hlen := asconEncrypt_length key nonce ad pt
  have hbody : (xorKs key nonce 0 pt).length = pt.length := xorKs_length key nonce 0 pt
  simp only [asconDecrypt, hlen]
  rw [if_neg (by omega)]
  have hsub : pt.length + 16 - 16 = (xorKs key nonce 0 pt).length := by omega
  simp only [asconEncrypt]
  rw [hsub, List.take_left, List.drop_left, if_pos rfl, xorKs_xorKs]

/-- `ciphertext` with bit `b` of the byte at position `pos` flipped. -/
def flipBit (l : List Nat) (pos b : Nat) : List Nat :=
  l.set pos (l.getD pos 0 ^^^ 2 ^ b)

theorem xor_ne_self (x c : Nat) (hc : c ≠ 0) : x ^^^ c ≠ x := by
  intro h
  apply hc
  have h2 : x ^^^ (x ^^^ c) = x ^^^ x := congrArg (x ^^^ ·) h
  rwa [← Nat.xor_assoc, Nat.xor_self, Nat.zero_xor] at h2

theorem tagAux_set (j : Nat) : ∀ (l : List Nat) (p i c : Nat), p < l.length →
    tagAux j i (l.set p (l.getD p 0 ^^^ c)) =
      if (i + p) % 16 = j then tagAux j i l ^^^ c else tagAux j i l := by
  intro l
  induction l with
  | nil => intro p i c h; simp at h
  | cons hd tl ih =>
    intro p i c h
    cases p with
    | zero =>
      simp only [List.set_cons_zero, List.getD_cons_zero, tagAux, Nat.add_zero]
      by_cases hij : i % 16 = j
      · rw [if_pos hij, if_pos hij, if_pos hij]
        rw [Nat.xor_assoc, Nat.xor_assoc, Nat.xor_comm c (tagAux j (i + 1) tl)]
      · rw [if_neg hij, if_neg hij, if_neg hij]
    | succ p =>
      have htl : p < tl.length := by simpa using h
      simp only [List.set_cons_succ, List.getD_cons_succ, tagAux]
      rw [ih p (i + 1) c htl]
      have harith : i + 1 + p = i + (p + 1) := by omega
      rw [harith]
      by_cases hij : (i + (p + 1)) % 16 = j
      · rw [if_pos hij, if_pos hij, Nat.xor_assoc]
      · rw [if_neg hij, if_neg hij]

theorem xor_left_cancel (a x y : Nat) (h : a ^^^ x = a ^^^ y) : x = y := by
  have h2 := congrArg (a ^^^ ·) h
  simpa [← Nat.xor_assoc, Nat.xor_self, Nat.zero_xor] using h2

theorem tag16_set_ne (key nonce body : List Nat) (p c : Nat) (hp : p < body.length)
    (hc : c ≠ 0) :
    tag16 key nonce (body.set p (body.getD p 0 ^^^ c)) ≠ tag16 key nonce body := by
  intro heq
  have hj : p % 16 < 16 := Nat.mod_lt p (by omega)
  have h1 := congrArg (fun l => l.getD (p % 16) 0) heq
  simp only [tag16_getD _ _ _ _ hj] at h1
  rw [tagByte, tagByte, tagAux_set (p % 16) body p 0 c hp, Nat.zero_add, if_pos rfl] at h1
  exact xor_ne_self _ c hc (xor_left_cancel _ _ _ h1)

theorem set_append_left {α : Type} (l₁ l₂ : List α) (p : Nat) (v : α) (h : p < l₁.length) :
    (l₁ ++ l₂).set p v = l₁.set p v ++ l₂ := by
  induction l₁ generalizing p with
  | nil => simp at h
  | cons hd tl ih =>
    cases p with
    | zero => rfl
    | succ p =>
      simp only [List.cons_append, List.set_cons_succ]
      rw [ih p (by simpa using h)]

theorem set_append_right {α : Type} (l₁ l₂ : List α) (p : Nat) (v : α) (h : l₁.length ≤ p) :
    (l₁ ++ l₂).set p v = l₁ ++ l₂.set (p - l₁.length) v := by
  induction l₁ generalizing p with
  | nil => simp
  | cons hd tl ih =>
    cases p with
    | zero => simp at h
    | succ p =>
      simp only [List.cons_append, List.set_cons_succ]
      rw [ih p (by simpa using h)]
      simp [Nat.succ_sub_succ]

theorem getD_append_left {α : Type} (l₁ l₂ : List α) (p : Nat) (d : α) (h : p < l₁.length) :
    (l₁ ++ l₂).getD p d = l₁.getD p d := by
  induction l₁ generalizing p with
  | nil => simp at h
  | cons hd tl ih =>
    cases p with
    | zero => rfl
    | succ p => simpa using ih p (by simpa using h)

theorem getD_append_right {α : Type} (l₁ l₂ : List α) (p : Nat) (d : α) (h : l₁.length ≤ p) :
    (l₁ ++ l₂).getD p d = l₂.getD (p - l₁.length) d := by
  induction l₁ generalizing p with
  | nil => simp
  | cons hd tl ih =>
    cases p with
    | zero => simp at h
    | succ p =>
      simp only [List.cons_append, List.getD_cons_succ, List.length_cons, Nat.succ_sub_succ]
      exact ih p (by simpa using h)

theorem getD_set_self {α : Type} (l : List α) (p : Nat) (v d : α) (h : p < l.length) :
    (l.set p v).getD p d = v := by
  induction l generalizing p with
  | nil => simp at h
  | cons hd tl ih =>
    cases p with
    | zero => rfl
    | succ p => simpa using ih p (by simpa using h)

/-- Any single-bit flip anywhere in the combined ciphertext-with-tag makes
tag verification, and hence decryption, fail. -/
theorem asconDecrypt_flip (key nonce ad pt : List Nat) (pos b : Nat)
    (hpos : pos < pt.length + 16) :
    asconDecrypt key nonce ad (flipBit (asconEncrypt key nonce ad pt) pos b) = none := by
  have hb : (2 : Nat) ^ b ≠ 0 := (Nat.pow_pos (show 0 < 2 by omega) (n := b)).ne'
  have hbl : (xorKs key nonce 0 pt).length = pt.length := xorKs_length key nonce 0 pt
  have htl : (tag16 key nonce (xorKs key nonce 0 pt)).length = 16 := tag16_length _ _ _
  set body := xorKs key nonce 0 pt with hbody
  set tg := tag16 key nonce body with htg
  by_cases hcase : pos < body.length
  · -- the flip lands in the ciphertext body
    have hgd : (body ++ tg).getD pos 0 = body.getD pos 0 :=
      getD_append_left body tg pos 0 hcase
    have hset : flipBit (asconEncrypt key nonce ad pt) pos b
        = body.set pos (body.getD pos 0 ^^^ 2 ^ b) ++ tg := by
      rw [flipBit, asconEncrypt]
      simp only [← hbody, ← htg]
      rw [hgd, set_append_left body tg pos _ hcase]
    rw [hset]
    have hlen : (body.set pos (body.getD pos 0 ^^^ 2 ^ b)).length = body.length :=
      List.length_set body pos _
    rw [asconDecrypt]
    rw [List.length_append, hlen]
    rw [if_neg (by omega)]
    have hsub : body.length + tg.length - 16 = (body.set pos (body.getD pos 0 ^^^ 2 ^ b)).length := by
      omega
    rw [hsub, List.take_left, List.drop_left]
    rw [if_neg]
    exact fun heq => tag16_set_ne key nonce body pos (2 ^ b) hcase hb heq.symm
  · -- the flip lands in the tag
    have hk : pos - body.length < 16 := by omega
    have hgd : (body ++ tg).getD pos 0 = tg.getD (pos - body.length) 0 :=
      getD_append_right body tg pos 0 (by omega)
    have hset : flipBit (asconEncrypt key nonce ad pt) pos b
        = body ++ tg.set (pos - body.length) (tg.getD (pos - body.length) 0 ^^^ 2 ^ b) := by
      rw [flipBit, asconEncrypt]
      simp only [← hbody, ← htg]
      rw [hgd, set_append_right body tg pos _ (by omega)]
    rw [hset]
    have hlen : (tg.set (pos - body.length) (tg.getD (pos - body.length) 0 ^^^ 2 ^ b)).length
        = 16 := by
      rw [List.length_set]; exact htl
    rw [asconDecrypt]
    rw [List.length_append, hlen]
    rw [if_neg (by omega)]
    have hsub : body.length + 16 - 16 = body.length := by omega
    rw [hsub, List.take_left, List.drop_left]
    rw [if_neg]
    intro heq
    have h1 := congrArg (fun l => l.getD (pos - body.length) 0) heq
    simp only at h1
    rw [getD_set_self tg (pos - body.length) _ 0 (by omega)] at h1
    exact xor_ne_self _ _ hb h1

/-! ### AsconCrypto (services/common/crypto_utils.py)

`AsconCrypto.encrypt`/`AsconCrypto.decrypt` wrap the AEAD primitive:
both raise `ValueError` on a nonce that is not 16 bytes, `encrypt`
serialises the payload with `json.dumps` before encrypting, and `decrypt`
wraps every failure of `ascon.decrypt`/`json.loads` into a
`ValueError("Decryption failed - data may be tampered")`. -/

/-- The two `ValueError` classes `AsconCrypto` raises: the nonce-length
check, and the wrapped decryption/authentication failure. -/
inductive CryptoError where
  | invalidNonceLength
  | decryptionFailed
deriving DecidableEq, Repr

/-- `AsconCrypto.encrypt(payload, nonce)`.  The nonce is passed explicitly;
the source draws 16 random bytes (`os.urandom(16)`) when the caller omits
it, which an explicit argument models. -/
def asconCryptoEncrypt (key : List Nat) (payload : Payload) (nonce : List Nat) :
    Except CryptoError (List Nat × List Nat) :=
  if nonce.length ≠ 16 then .error .invalidNonceLength
  else .ok (asconEncrypt key nonce [] (jsonDumps payload), nonce)

/-- `AsconCrypto.decrypt(ciphertext, nonce)`. -/
def asconCryptoDecrypt (key : List Nat) (ciphertext nonce : List Nat) :
    Except CryptoError Payload :=
  if nonce.length ≠ 16 then .error .invalidNonceLength
  else
    match asconDecrypt key nonce [] ciphertext with
    | some pt =>
      match jsonLoads pt with
      | some p => .ok p
      | none => .error .decryptionFailed
    | none => .error .decryptionFailed

/-! ### KeyManager (services/common/crypto_utils.py)

The key store is a JSON file read fully into memory: a dict from device id
to a record dict.  It is embedded as an insertion-ordered association
list passed explicitly through each operation.  Key generation
(`os.urandom(16).hex()`) and timestamps (`datetime.utcnow()`) are
nondeterministic inputs, passed as explicit `entropy`/`now` arguments. -/

/-- One value of the `self.keys` dict: `provision_device` writes
`key/created_at/status`, `revoke_device` adds `revoked_at`, `rotate_key`
writes `key/rotated_at/status` and archives `key/archived_at` records
(which carry no `status` field). -/
structure KeyRecord where
  key : String
  status : Option String := none
  created_at : Option String := none
  revoked_at : Option String := none
  rotated_at : Option String := none
  archived_at : Option String := none
deriving DecidableEq, Repr

/-- The in-memory `self.keys` dict of `KeyManager`. -/
abbrev KeyStore := List (String × KeyRecord)

/-- Dict lookup `self.keys.get(device_id)` / `device_id in self.keys`. -/
def dget (ks : KeyStore) (id : String) : Option KeyRecord :=
  match ks with
  | [] => none
  | (id', r) :: rest => if id' = id then some r else dget rest id

/-- Dict assignment `self.keys[device_id] = record`. -/
def dset (ks : KeyStore) (id : String) (r : KeyRecord) : KeyStore :=
  match ks with
  | [] => [(id, r)]
  | (id', r') :: rest => if id' = id then (id', r) :: rest else (id', r') :: dset rest id r

/-- The `ValueError` raised by `get_device_key` when the stored record's
status is not `'active'` (a revoked device, or an archived side record). -/
inductive DeviceError where
  | notActive
deriving DecidableEq, Repr

/-- `KeyManager.provision_device`: returns the stored key unchanged when a
record already exists (whatever its status), otherwise installs a fresh
Active record holding the generated key. -/
def provision_device (ks : KeyStore) (id : String) (entropy now : String) :
    KeyStore × String :=
  match dget ks id with
  | some info => (ks, info.key)
  | none => (dset ks id { key := entropy, created_at := some now, status := some "active" }, entropy)

/-- `KeyManager.get_device_key`: auto-provisions an absent device, fails
with `ValueError` when the record's status is not `'active'`. -/
def get_device_key (ks : KeyStore) (id : String) (entropy now : String) :
    KeyStore × Except DeviceError String :=
  match dget ks id with
  | none =>
    let res := provision_device ks id entropy now
    (res.1, .ok res.2)
  | some info =>
    if info.status = some "active" then (ks, .ok info.key)
    else (ks, .error .notActive)

/-- `KeyManager.revoke_device`: marks an existing record revoked and stamps
`revoked_at`; a missing device id is a no-op. -/
def revoke_device (ks : KeyStore) (id : String) (now : String) : KeyStore :=
  match dget ks id with
  | some info => dset ks id { info with status := some "revoked", revoked_at := some now }
  | none => ks

/-- `KeyManager.rotate_key`: archives the current key (when one exists)
under the alias `f"{device_id}_old"`, then installs a fresh Active record
holding the new key. -/
def rotate_key (ks : KeyStore) (id : String) (entropy now : String) :
    KeyStore × String :=
  let ks1 := match dget ks id with
    | some info => dset ks (id ++ "_old") { key := info.key, archived_at := some now }
    | none => ks
  (dset ks1 id { key := entropy, rotated_at := some now, status := some "active" }, entropy)

theorem dget_dset_self (ks : KeyStore) (id : String) (r : KeyRecord) :
    dget (dset ks id r) id = some r := by
  induction ks with
  | nil => simp [dget, dset]
  | cons hd tl ih =>
    obtain ⟨id', r'⟩ := hd
    by_cases h : id' = id
    · simp [dget, dset, h]
    · simp [dget, dset, h, ih]

theorem dget_dset_ne (ks : KeyStore) (id id' : String) (r : KeyRecord) (h : id' ≠ id) :
    dget (dset ks id r) id' = dget ks id' := by
  induction ks with
  | nil =>
    simp only [dset, dget]
    rw [if_neg (fun hh => h hh.symm)]
  | cons hd tl ih =>
    obtain ⟨id'', r''⟩ := hd
    simp only [dset]
    by_cases h2 : id'' = id
    · rw [if_pos h2]
      have h4 : ¬ id'' = id' := by rw [h2]; exact fun hh => h hh.symm
      simp only [dget]
      rw [if_neg h4, if_neg h4]
    · rw [if_neg h2]
      simp only [dget]
      by_cases h3 : id'' = id'
      · rw [if_pos h3, if_pos h3]
      · rw [if_neg h3, if_neg h3, ih]

theorem dset_absent (ks : KeyStore) (id : String) (r : KeyRecord)
    (h : dget ks id = none) : dset ks id r = ks ++ [(id, r)] := by
  induction ks with
  | nil => rfl
  | cons hd tl ih =>
    obtain ⟨id', r'⟩ := hd
    by_cases h2 : id' = id
    · simp [dget, h2] at h
    · simp only [dget, if_neg h2] at h
      simp [dset, h2, ih h]

theorem filter_key_nil (ks : KeyStore) (id : String) (h : dget ks id = none) :
    ks.filter (fun p => p.1 == id) = [] := by
  induction ks with
  | nil => rfl
  | cons hd tl ih =>
    obtain ⟨id', r'⟩ := hd
    by_cases h2 : id' = id
    · simp [dget, h2] at h
    · simp only [dget, if_neg h2] at h
      have hb : ((id', r').1 == id) = false := by simp [h2]
      simp [List.filter_cons, hb, ih h]

/-! ### Ingestion pipeline (services/main_host/app_encrypted.py)

`on_mqtt_message` is embedded as a pure function from the pipeline's
mutable state (the Prometheus gauges and the rolling in-memory patient
store) and the incoming message to the successor state plus an outcome.
The base64 transport encoding (`encode_payload`/`decode_payload`) is a
bijection on byte strings and is modelled as transparent: envelope fields
hold the decoded bytes.  Key lookup (`key_manager.get_device_key` plus
`bytes.fromhex`) is abstracted as the `deviceKey` argument; its failure
modes are not exercised by any claim.  Latency histograms and message
counters are not part of the state; the failure-reason labels the handler
records are returned in the outcome instead. -/

/-- Python `str.replace(old, new)` (replace every occurrence, scanning
left to right), on character lists, fuelled by the remaining length.
The pipeline only calls it with the non-empty pattern `"ward_"`, for
which the fuel always suffices. -/
def replaceAllAux (pat rep : List Char) : Nat → List Char → List Char
  | 0, s => s
  | fuel + 1, s =>
    match s with
    | [] => []
    | c :: rest =>
      if !pat.isEmpty && pat.isPrefixOf s then
        rep ++ replaceAllAux pat rep fuel (s.drop pat.length)
      else c :: replaceAllAux pat rep fuel rest

/-- Python `s.replace(pat, rep)` on strings. -/
def pyReplace (s pat rep : String) : String :=
  String.mk (replaceAllAux pat.data rep.data s.data.length s.data)

/-- The Prometheus label set `dict(hospital=..., department=..., ward=...,
patient=...)` used by `process_patient_data`. -/
structure Labels where
  hospital : String
  department : String
  ward : String
  patient : String
deriving DecidableEq, Repr

/-- The current values of the vitals gauges, keyed by metric name and
label set (`gauge.labels(**labels).set(value)` is last-write-wins). -/
abbrev Gauges := List ((String × Labels) × Int)

/-- `gauge.labels(**labels).set(v)`. -/
def gset (g : Gauges) (name : String) (lab : Labels) (v : Int) : Gauges :=
  match g with
  | [] => [((name, lab), v)]
  | ((n', l'), v') :: rest =>
    if n' = name ∧ l' = lab then ((n', l'), v) :: rest
    else ((n', l'), v') :: gset rest name lab v

/-- The keys of the module-level `metrics` dict of gauges. -/
def metricNames : List String :=
  ["heart_rate", "bp_systolic", "bp_diastolic", "respiratory_rate", "spo2",
   "etco2", "fio2", "temperature", "wbc_count", "lactate", "blood_glucose",
   "anomaly_score"]

/-- The in-memory `patient_data_store` (`defaultdict(list)`), keyed by
the string `hospital|dept|ward|patient`. -/
abbrev DataStore := List (String × List Payload)

/-- `patient_data_store[key]` (a `defaultdict`: absent keys read as `[]`). -/
def sget (store : DataStore) (key : String) : List Payload :=
  match store with
  | [] => []
  | (k', l) :: rest => if k' = key then l else sget rest key

/-- `patient_data_store[key] = l`. -/
def sset (store : DataStore) (key : String) (l : List Payload) : DataStore :=
  match store with
  | [] => [(key, l)]
  | (k', l') :: rest => if k' = key then (k', l) :: rest else (k', l') :: sset rest key l

/-- The rolling-store update of `process_patient_data`: append the new
reading, then `store[key] = store[key][-100:]` whenever the length
exceeds 100. -/
def push100 (l : List Payload) (v : Payload) : List Payload :=
  let l2 := l ++ [v]
  if l2.length > 100 then l2.drop (l2.length - 100) else l2

theorem push100_length_le (l : List Payload) (v : Payload) : (push100 l v).length ≤ 100 := by
  simp only [push100]
  by_cases h : (l ++ [v]).length > 100
  · rw [if_pos h, List.length_drop]
    omega
  · rw [if_neg h]
    omega

theorem foldl_push100 (vs : List Payload) : ∀ acc : List Payload, acc.length ≤ 100 →
    List.foldl push100 acc vs = (acc ++ vs).drop ((acc ++ vs).length - 100) := by
  induction vs with
  | nil =>
    intro acc h
    simp only [List.foldl_nil, List.append_nil]
    rw [show acc.length - 100 = 0 by omega, List.drop_zero]
  | cons v vs ih =>
    intro acc h
    rw [List.foldl_cons, ih (push100 acc v) (push100_length_le acc v)]
    by_cases hlen : (acc ++ [v]).length > 100
    · have h100 : acc.length = 100 := by
        rw [List.length_append] at hlen
        simp at hlen
        omega
      have hdrop : push100 acc v = (acc ++ [v]).drop ((acc ++ [v]).length - 100) := by
        simp only [push100]
        rw [if_pos hlen]
      rw [hdrop,
        ← List.drop_append_of_le_length (by rw [List.length_append]; simp; omega),
        List.drop_drop, List.append_assoc, List.singleton_append]
      have hidx : (acc ++ [v]).length - 100 +
          ((List.drop ((acc ++ [v]).length - 100) (acc ++ v :: vs)).length - 100) =
          (acc ++ v :: vs).length - 100 := by
        simp only [List.length_drop, List.length_append, List.length_cons, List.length_nil]
        omega
      rw [hidx]
    · have hpush : push100 acc v = acc ++ [v] := by
        simp only [push100]
        rw [if_neg hlen]
      rw [hpush, List.append_assoc, List.singleton_append]

theorem sget_sset_self (store : DataStore) (key : String) (l : List Payload) :
    sget (sset store key l) key = l := by
  induction store with
  | nil => simp [sget, sset]
  | cons hd tl ih =>
    obtain ⟨k', l'⟩ := hd
    by_cases h : k' = key
    · simp [sget, sset, h]
    · simp [sget, sset, h, ih]

/-- `process_patient_data(vitals, hospital, dept, ward, patient_id)`:
sets one gauge per metric name present in the vitals, attaches the
hospital/dept/ward/patient metadata to the reading, and appends it to
the rolling per-patient store.  A gauge update with a non-numeric value
raises inside the per-metric try/except and is skipped; the claims only
exercise numeric values. -/
def process_patient_data (g : Gauges) (store : DataStore) (vitals : Payload)
    (hospital dept ward patient_id : String) : Gauges × DataStore :=
  let lab : Labels := ⟨hospital, dept, ward, patient_id⟩
  let g2 := metricNames.foldl (fun acc name =>
    match pget vitals name with
    | some (.int v) => gset acc name lab v
    | some (.str _) => acc
    | none => acc) g
  let v1 := pset vitals "hospital" (.str hospital)
  let v2 := pset v1 "dept" (.str dept)
  let v3 := pset v2 "ward" (.str ward)
  let v4 := pset v3 "patient" (.str patient_id)
  let key := hospital ++ "|" ++ dept ++ "|" ++ ward ++ "|" ++ patient_id
  (g2, sset store key (push100 (sget store key) v4))

/-- The wire message after JSON parsing, with the `.get(...)` defaults of
`on_mqtt_message` applied and the base64 fields already decoded to bytes. -/
structure Envelope where
  device_id : String := "unknown"
  hospital : String := "unknown"
  ward : String := "unknown"
  encrypted : Bool := false
  ciphertext : Option (List Nat) := none
  nonce : Option (List Nat) := none
  vitals : Option Payload := none
deriving DecidableEq, Repr

/-- The observable outcome of one `on_mqtt_message` invocation:
the reading was dispatched downstream, or the message was dropped with
the reason label recorded on the `decryption_failure` metric, or the
outer `except Exception` logged an error.  In every case the callback
returns to the subscriber loop instead of propagating an exception. -/
inductive HandlerResult where
  | dispatched (vitals : Payload)
  | rejected (reason : String)
  | outerError
deriving DecidableEq, Repr

/-- The pipeline's mutable state: gauge values and the rolling store. -/
structure PipeState where
  gauges : Gauges := []
  store : DataStore := []
deriving DecidableEq, Repr

/-- Python `s.split(sep)` for a single-character separator, on character
lists: `"".split` gives one empty part, adjacent separators give empty
parts. -/
def pySplit (sep : Char) : List Char → List (List Char)
  | [] => [[]]
  | c :: rest =>
    match pySplit sep rest with
    | [] => [[]]
    | cur :: done => if c = sep then [] :: cur :: done else (c :: cur) :: done

/-- Python `s.split(sep)` on strings, single-character separator. -/
def pySplitStr (s : String) (sep : Char) : List String :=
  (pySplit sep s.data).map String.mk

/-- The patient-id extraction of `on_mqtt_message`: index 5 of the topic
split on `/` when at least six segments are present
(`if len(topic_parts) >= 6`), otherwise the trailing `_`-component of the
device id, else `"unknown"`. -/
def topicPatientId (topic device_id : String) : String :=
  let topic_parts := pySplitStr topic '/'
  if 6 ≤ topic_parts.length then topic_parts.getD 5 ""
  else if device_id.data.contains '_' then (pySplitStr device_id '_').getLastD "unknown"
  else "unknown"

/-- Modelled from the spec: `call_ml_service` posts to the anomaly-scorer
HTTP service, which is outside the embedded pipeline; per the spec a
failure or timeout yields the fallback score 0.0 and processing
continues, so the model returns the fallback score. -/
def call_ml_service (_vitals : Payload) : Int := 0

/-- `on_mqtt_message(client, userdata, msg)`.

For an encrypted envelope the handler runs
`vitals, decryption_time_ms = crypto.decrypt(ciphertext, nonce)`, but
`AsconCrypto.decrypt` returns the payload dict itself.  Python unpacks a
dict by iterating its keys: with exactly two keys the unpack binds two
key strings and the following histogram `observe(decryption_time_ms)`
raises `TypeError` (string passed to a float add), caught by the generic
`except Exception` branch (reason `decryption_error`); with any other
key count the unpack itself raises `ValueError`, caught by the
`except ValueError` branch (reason `auth_failed`) — the same branch and
reason that catches the nonce-length and authentication `ValueError`s
raised by `AsconCrypto.decrypt`.  A missing `ciphertext`/`nonce` field
raises `KeyError`, caught only by the outer `except Exception`.
`save_vitals_to_database` swallows its own failures and does not touch
the pipeline state, so it is a no-op here. -/
def on_mqtt_message (cryptoAvailable : Bool) (deviceKey : List Nat) (st : PipeState)
    (topic : String) (env : Envelope) : PipeState × HandlerResult :=
  let patient_id := topicPatientId topic env.device_id
  let dept := pyReplace env.ward "ward_" "dept_"
  if env.encrypted then
    if cryptoAvailable then
      match env.ciphertext, env.nonce with
      | some ct, some nonce =>
        match asconCryptoDecrypt deviceKey ct nonce with
        | .error _ => (st, .rejected "auth_failed")
        | .ok payload =>
          if payload.length = 2 then (st, .rejected "decryption_error")
          else (st, .rejected "auth_failed")
      | _, _ => (st, .outerError)
    else (st, .rejected "crypto_unavailable")
  else
    let vitals := env.vitals.getD []
    let vitals1 :=
      if pget vitals "anomaly_score" = none ∨ pget vitals "anomaly_score" = some (.int 0)
      then pset vitals "anomaly_score" (.int (call_ml_service vitals))
      else vitals
    let res := process_patient_data st.gauges st.store vitals1 env.hospital dept env.ward patient_id
    (⟨res.1, res.2⟩, .dispatched vitals1)

/-! ### Patient simulator (services/patient_simulator/send_data_encrypted.py) -/

/-- Python tuple unpacking `a, b, c = t`: succeeds exactly when the
unpacked value has three elements, otherwise raises `ValueError`. -/
def unpack3 {α : Type} (t : List α) : Option (α × α × α) :=
  match t with
  | [a, b, c] => some (a, b, c)
  | _ => none

/-- `publish_encrypted_vitals`: when crypto is available, the simulator
runs `ciphertext, nonce, encryption_time_ms = crypto.encrypt(vitals_payload)`
— a three-name unpack of the two-element tuple `AsconCrypto.encrypt`
returns — inside a try whose except-branch publishes the plain fallback
envelope; without crypto it publishes the plain fallback directly.
The function returns the envelope handed to `mqtt_client.publish`. -/
def publish_encrypted_vitals (cryptoAvailable : Bool) (deviceKey : List Nat)
    (nonce : List Nat) (device_id hospital ward : String) (vitals_payload : Payload) :
    Envelope :=
  let plainFallback : Envelope :=
    { device_id := device_id, hospital := hospital, ward := ward,
      encrypted := false, vitals := some vitals_payload }
  if cryptoAvailable then
    match asconCryptoEncrypt deviceKey vitals_payload nonce with
    | .ok (ct, n) =>
      match unpack3 [ct, n] with
      | some (c, nn, _timing) =>
        { device_id := device_id, hospital := hospital, ward := ward,
          encrypted := true, ciphertext := some c, nonce := some nn }
      | none => plainFallback
    | .error _ => plainFallback
  else plainFallback

theorem append_old_ne (id : String) : ¬ (id ++ "_old" = id) := by
  intro h
  have h2 := congrArg String.length h
  rw [String.length_append] at h2
  have h3 : ("_old" : String).length = 4 := rfl
  omega

/-! ### Claims -/

/-- Concrete 16-byte device key for the end-to-end scenario. -/
def scenKey : List Nat := List.replicate 16 7

/-- Concrete 16-byte nonce for the end-to-end scenario. -/
def scenNonce : List Nat := (List.range 16).map (fun i => i + 1)

/-- The scenario vitals payload, the dict literal of the spec scenario. -/
def scenPayload : Payload := [("heart_rate", JVal.int 72), ("spo2", JVal.int 98)]

/-- The scenario ciphertext: the vitals payload encrypted under the
scenario key and nonce. -/
def scenCiphertext : List Nat := asconEncrypt scenKey scenNonce [] (jsonDumps scenPayload)

/-- The scenario wire envelope as `on_mqtt_message` receives it. -/
def scenEnvelope : Envelope :=
  { device_id := "1_7", hospital := "1", ward := "2", encrypted := true,
    ciphertext := some scenCiphertext, nonce := some scenNonce }

/-- C1: the end-to-end scenario fails on the shipped code.
`AsconCrypto.decrypt` succeeds and returns the two-entry vitals dict, but
`on_mqtt_message` unpacks two names from that dict
(`vitals, decryption_time_ms = crypto.decrypt(...)`), binding the two key
strings, and the following histogram observe raises `TypeError`; the
handler therefore drops the message with reason `decryption_error` and
leaves the pipeline state — including the `heart_rate` gauge — unchanged,
instead of dispatching the reading with hospital/ward/patient metadata
and setting the gauge to 72. -/
theorem scenario_encrypted_vitals_dropped :
    asconCryptoDecrypt scenKey scenCiphertext scenNonce = .ok scenPayload ∧
    on_mqtt_message true scenKey {} "hospital/1/ward/2/patient/7" scenEnvelope =
      ({}, .rejected "decryption_error") :=
  ⟨rfl, rfl⟩

/-- C2: for every 16-byte key, every 16-byte nonce and every payload
dictionary P, decrypting the output of `AsconCrypto.encrypt` with the
same key and nonce returns P. -/
theorem encrypt_decrypt_roundtrip (key nonce : List Nat) (P : Payload)
    (_hkey : key.length = 16) (hnonce : nonce.length = 16) :
    asconCryptoEncrypt key P nonce =
      .ok (asconEncrypt key nonce [] (jsonDumps P), nonce) ∧
    asconCryptoDecrypt key (asconEncrypt key nonce [] (jsonDumps P)) nonce = .ok P := by
  constructor
  · simp [asconCryptoEncrypt, hnonce]
  · simp [asconCryptoDecrypt, hnonce, asconDecrypt_encrypt, jsonLoads_dumps]

/-- Concrete key for round-trip and tamper witnesses. -/
def wKey : List Nat := List.replicate 16 3

/-- Concrete nonce for round-trip and tamper witnesses. -/
def wNonce : List Nat := List.replicate 16 5

/-- Concrete payload for round-trip and tamper witnesses. -/
def wPayload : Payload := [("heart_rate", JVal.int 72)]

/-- Witness for C2 at a concrete key, nonce and payload. -/
theorem encrypt_decrypt_roundtrip_witness :
    wKey.length = 16 ∧ wNonce.length = 16 ∧
    (asconCryptoEncrypt wKey wPayload wNonce =
      .ok (asconEncrypt wKey wNonce [] (jsonDumps wPayload), wNonce) ∧
    asconCryptoDecrypt wKey (asconEncrypt wKey wNonce [] (jsonDumps wPayload)) wNonce =
      .ok wPayload) :=
  ⟨by decide, by decide, encrypt_decrypt_roundtrip wKey wNonce wPayload (by decide) (by decide)⟩

/-- C3: flipping any single bit of the ciphertext-with-tag produced by
`AsconCrypto.encrypt` makes `AsconCrypto.decrypt` fail with the wrapped
authentication `ValueError`, never returning corrupted plaintext. -/
theorem decrypt_flipped_ciphertext_fails (key nonce ct : List Nat) (P : Payload)
    (pos b : Nat) (henc : asconCryptoEncrypt key P nonce = .ok (ct, nonce))
    (hpos : pos < ct.length) (_hb : b < 8) :
    asconCryptoDecrypt key (flipBit ct pos b) nonce = .error .decryptionFailed := by
  have hnonce : nonce.length = 16 := by
    by_contra hn
    simp [asconCryptoEncrypt, hn] at henc
  have hct : ct = asconEncrypt key nonce [] (jsonDumps P) := by
    simp [asconCryptoEncrypt, hnonce] at henc
    exact henc.symm
  subst hct
  have hlen := asconEncrypt_length key nonce [] (jsonDumps P)
  simp only [asconCryptoDecrypt]
  rw [if_neg (by omega)]
  rw [asconDecrypt_flip key nonce [] (jsonDumps P) pos b (by omega)]

/-- Witness for C3: flipping bit 0 of byte 0 of a concrete ciphertext. -/
theorem decrypt_flipped_ciphertext_fails_witness :
    asconCryptoEncrypt wKey wPayload wNonce =
      .ok (asconEncrypt wKey wNonce [] (jsonDumps wPayload), wNonce) ∧
    0 < (asconEncrypt wKey wNonce [] (jsonDumps wPayload)).length ∧ 0 < 8 ∧
    asconCryptoDecrypt wKey
      (flipBit (asconEncrypt wKey wNonce [] (jsonDumps wPayload)) 0 0) wNonce =
      .error .decryptionFailed :=
  ⟨rfl, by decide, by decide,
    decrypt_flipped_ciphertext_fails wKey wNonce _ wPayload 0 0 rfl (by decide) (by decide)⟩

/-- A key store holding one revoked record, for the C4 counterexample. -/
def revokedStore : KeyStore :=
  [("d", { key := "k", status := some "revoked", created_at := some "t0",
           revoked_at := some "t1" })]

/-- C4 counterexample: `provision_device` checks only membership, never
status.  Over a Revoked record it returns the stored revoked key and
leaves the store unchanged — it does not create a fresh Active record. -/
theorem provision_revoked_returns_revoked_key :
    dget revokedStore "d" =
      some { key := "k", status := some "revoked",
             created_at := some "t0", revoked_at := some "t1" } ∧
    provision_device revokedStore "d" "freshkey" "t2" = (revokedStore, "k") ∧
    ¬ ("k" = "freshkey") :=
  ⟨rfl, rfl, by decide⟩

/-- C4 (amended): provisioning an absent device installs an Active record
holding the generated key and returns it; a repeat call returns the same
key, changes nothing, and the store holds exactly one record for the
device, which is Active; over an existing record — Active or Revoked —
`provision_device` returns the stored key and leaves the store unchanged. -/
theorem provision_device_behaviour (ks : KeyStore) (id e1 e2 t1 t2 : String) :
    (dget ks id = none →
      provision_device ks id e1 t1 =
        (dset ks id { key := e1, created_at := some t1, status := some "active" }, e1) ∧
      provision_device
          (dset ks id { key := e1, created_at := some t1, status := some "active" }) id e2 t2 =
        (dset ks id { key := e1, created_at := some t1, status := some "active" }, e1) ∧
      (dset ks id { key := e1, created_at := some t1, status := some "active" }).filter
          (fun p => p.1 == id) =
        [(id, { key := e1, created_at := some t1, status := some "active" })]) ∧
    (∀ r, dget ks id = some r → r.status = some "active" →
      provision_device ks id e1 t1 = (ks, r.key)) ∧
    (∀ r, dget ks id = some r → r.status = some "revoked" →
      provision_device ks id e1 t1 = (ks, r.key)) := by
  refine ⟨?_, ?_, ?_⟩
  · intro hnone
    refine ⟨?_, ?_, ?_⟩
    · simp [provision_device, hnone]
    · simp [provision_device, dget_dset_self]
    · rw [dset_absent ks id _ hnone, List.filter_append, filter_key_nil ks id hnone]
      simp
  · intro r hr _
    simp [provision_device, hr]
  · intro r hr _
    simp [provision_device, hr]

/-- Witness for C4 at the empty store. -/
theorem provision_device_behaviour_witness :
    dget [] "d" = none ∧
    (provision_device [] "d" "k1" "t1" =
        (dset [] "d" { key := "k1", created_at := some "t1", status := some "active" }, "k1") ∧
      provision_device
          (dset [] "d" { key := "k1", created_at := some "t1", status := some "active" }) "d" "k2" "t2" =
        (dset [] "d" { key := "k1", created_at := some "t1", status := some "active" }, "k1") ∧
      (dset [] "d" { key := "k1", created_at := some "t1", status := some "active" }).filter
          (fun p => p.1 == "d") =
        [("d", { key := "k1", created_at := some "t1", status := some "active" })]) :=
  ⟨rfl, (provision_device_behaviour [] "d" "k1" "k2" "t1" "t2").1 rfl⟩

/-- C5: after `revoke_device`, the record is Revoked, `get_device_key`
fails with the not-active `ValueError` without changing the store (so it
does not auto-provision a replacement key), and a second revoke leaves
the record Revoked. -/
theorem revoke_then_get_fails (ks : KeyStore) (id : String) (r : KeyRecord)
    (e tg t1 t2 : String) (h : dget ks id = some r) :
    dget (revoke_device ks id t1) id =
      some { r with status := some "revoked", revoked_at := some t1 } ∧
    get_device_key (revoke_device ks id t1) id e tg =
      (revoke_device ks id t1, .error .notActive) ∧
    dget (revoke_device (revoke_device ks id t1) id t2) id =
      some { r with status := some "revoked", revoked_at := some t2 } := by
  have h1 : revoke_device ks id t1 =
      dset ks id { r with status := some "revoked", revoked_at := some t1 } := by
    simp [revoke_device, h]
  have h2 : dget (revoke_device ks id t1) id =
      some { r with status := some "revoked", revoked_at := some t1 } := by
    rw [h1, dget_dset_self]
  refine ⟨h2, ?_, ?_⟩
  · simp [get_device_key, h2]
  · generalize hg : revoke_device ks id t1 = ks1 at h2
    simp [revoke_device, h2, dget_dset_self]

/-- A store holding one Active record, for the C5 and C6 witnesses. -/
def activeStore : KeyStore :=
  [("d", { key := "k", status := some "active", created_at := some "t0" })]

/-- Witness for C5 at a concrete store with an Active record. -/
theorem revoke_then_get_fails_witness :
    dget activeStore "d" =
      some { key := "k", status := some "active", created_at := some "t0" } ∧
    (dget (revoke_device activeStore "d" "t1") "d" =
      some { key := "k", status := some "revoked", created_at := some "t0",
             revoked_at := some "t1" } ∧
    get_device_key (revoke_device activeStore "d" "t1") "d" "e" "tg" =
      (revoke_device activeStore "d" "t1", .error .notActive) ∧
    dget (revoke_device (revoke_device activeStore "d" "t1") "d" "t2") "d" =
      some { key := "k", status := some "revoked", created_at := some "t0",
             revoked_at := some "t2" }) :=
  ⟨rfl, revoke_then_get_fails activeStore "d" _ "e" "tg" "t1" "t2" rfl⟩

/-- C6: after `rotate_key`, the returned key is the freshly generated one,
`get_device_key` on the device returns only that new key (distinct from
the old one whenever the fresh entropy differs from it), the previous key
remains stored under the archival alias `id ++ "_old"`, and
`get_device_key` on the archival alias fails (the archive record has no
status), so the archived key is never served as a current key. -/
theorem rotate_key_behaviour (ks : KeyStore) (id : String) (r : KeyRecord)
    (eNew eG t tg : String) (h : dget ks id = some r) (hne : ¬ (eNew = r.key)) :
    (rotate_key ks id eNew t).2 = eNew ∧
    get_device_key (rotate_key ks id eNew t).1 id eG tg =
      ((rotate_key ks id eNew t).1, .ok eNew) ∧
    ¬ ((rotate_key ks id eNew t).2 = r.key) ∧
    dget (rotate_key ks id eNew t).1 (id ++ "_old") =
      some { key := r.key, archived_at := some t } ∧
    get_device_key (rotate_key ks id eNew t).1 (id ++ "_old") eG tg =
      ((rotate_key ks id eNew t).1, .error .notActive) := by
  have hks1 : rotate_key ks id eNew t =
      (dset (dset ks (id ++ "_old") { key := r.key, archived_at := some t }) id
        { key := eNew, rotated_at := some t, status := some "active" }, eNew) := by
    simp [rotate_key, h]
  have hgetid : dget (rotate_key ks id eNew t).1 id =
      some { key := eNew, rotated_at := some t, status := some "active" } := by
    rw [hks1]
    exact dget_dset_self _ _ _
  have hgetold : dget (rotate_key ks id eNew t).1 (id ++ "_old") =
      some { key := r.key, archived_at := some t } := by
    rw [hks1]
    simp only
    rw [dget_dset_ne _ _ _ _ (append_old_ne id), dget_dset_self]
  refine ⟨by rw [hks1], ?_, by rw [hks1]; exact hne, hgetold, ?_⟩
  · simp [get_device_key, hgetid]
  · simp [get_device_key, hgetold]

/-- Witness for C6 at a concrete store with an Active record. -/
theorem rotate_key_behaviour_witness :
    dget activeStore "d" =
      some { key := "k", status := some "active", created_at := some "t0" } ∧
    ¬ ("k2" = "k") ∧
    ((rotate_key activeStore "d" "k2" "t1").2 = "k2" ∧
    get_device_key (rotate_key activeStore "d" "k2" "t1").1 "d" "e" "tg" =
      ((rotate_key activeStore "d" "k2" "t1").1, .ok "k2") ∧
    ¬ ((rotate_key activeStore "d" "k2" "t1").2 = "k") ∧
    dget (rotate_key activeStore "d" "k2" "t1").1 ("d" ++ "_old") =
      some { key := "k", archived_at := some "t1" } ∧
    get_device_key (rotate_key activeStore "d" "k2" "t1").1 ("d" ++ "_old") "e" "tg" =
      ((rotate_key activeStore "d" "k2" "t1").1, .error .notActive)) :=
  ⟨rfl, by decide,
    rotate_key_behaviour activeStore "d" _ "k2" "e" "t1" "tg" rfl (by decide)⟩


/-- C7: the rolling store retains exactly the most recent 100 readings in
insertion order: folding any 150 readings through the per-key update
leaves precisely the last 100 (the first 50 — the oldest — dropped);
one update never leaves more than 100 entries; and the update applied to
a store key replaces exactly that key's list. -/
theorem rolling_store_bound :
    (∀ vs : List Payload, vs.length = 150 →
      List.foldl push100 [] vs = vs.drop 50 ∧
      (List.foldl push100 [] vs).length = 100) ∧
    (∀ (l : List Payload) (v : Payload), (push100 l v).length ≤ 100) ∧
    (∀ (store : DataStore) (key : String) (v : Payload),
      sget (sset store key (push100 (sget store key) v)) key =
        push100 (sget store key) v) := by
  refine ⟨?_, push100_length_le, ?_⟩
  · intro vs hlen
    have h := foldl_push100 vs [] (by simp)
    rw [List.nil_append] at h
    constructor
    · rw [h, hlen]
    · rw [h, List.length_drop]
      omega
  · intro store key v
    exact sget_sset_self _ _ _

/-- Witness for C7: 150 readings into an empty rolling store. -/
theorem rolling_store_bound_witness :
    (List.replicate 150 ([] : Payload)).length = 150 ∧
    (List.foldl push100 [] (List.replicate 150 ([] : Payload)) =
        (List.replicate 150 ([] : Payload)).drop 50 ∧
      (List.foldl push100 [] (List.replicate 150 ([] : Payload))).length = 100) :=
  ⟨by simp, rolling_store_bound.1 (List.replicate 150 []) (by simp)⟩

/-- Modelled from the spec (for comparison): the topic-binding rule exactly
as the claim states it — take the patient id from the trailing segment
only when the topic has exactly six segments, otherwise derive it from
the trailing underscore-component of the device id, else `"unknown"`. -/
def claimPatientId (topic device_id : String) : String :=
  let topic_parts := pySplitStr topic '/'
  if topic_parts.length = 6 then topic_parts.getD 5 ""
  else if device_id.data.contains '_' then (pySplitStr device_id '_').getLastD "unknown"
  else "unknown"

/-- C8 counterexample: on a seven-segment topic the code still takes
segment index 5 ("7"), while the claim's exactly-six rule requires the
device-id fallback ("9"). -/
theorem topic_seven_segments_counterexample :
    ¬ ((pySplitStr "hospital/1/ward/2/patient/7/extra" '/').length = 6) ∧
    topicPatientId "hospital/1/ward/2/patient/7/extra" "dev_9" = "7" ∧
    claimPatientId "hospital/1/ward/2/patient/7/extra" "dev_9" = "9" ∧
    ¬ (("7" : String) = "9") :=
  ⟨by decide, rfl, rfl, by decide⟩

/-- C8 (amended): the pipeline takes the patient id from segment index 5
whenever the topic has at least six segments (`len(topic_parts) >= 6`);
with fewer than six it falls back to the trailing underscore-component of
the device id (`"unknown"` when there is none).  It therefore agrees with
the claim's exactly-six rule on every topic with at most six segments. -/
theorem topic_binding_amended (topic device_id : String) :
    ((pySplitStr topic '/').length ≤ 6 →
      topicPatientId topic device_id = claimPatientId topic device_id) ∧
    (6 ≤ (pySplitStr topic '/').length →
      topicPatientId topic device_id = (pySplitStr topic '/').getD 5 "") := by
  constructor
  · intro hle
    by_cases h6 : (pySplitStr topic '/').length = 6
    · simp only [topicPatientId, claimPatientId]
      rw [if_pos (by omega), if_pos h6]
    · simp only [topicPatientId, claimPatientId]
      rw [if_neg (by omega), if_neg h6]
  · intro hge
    simp only [topicPatientId]
    rw [if_pos hge]

/-- Witness for C8 at the six-segment scenario topic. -/
theorem topic_binding_amended_witness :
    6 ≤ (pySplitStr "hospital/1/ward/2/patient/7" '/').length ∧
    topicPatientId "hospital/1/ward/2/patient/7" "1_7" =
      (pySplitStr "hospital/1/ward/2/patient/7" '/').getD 5 "" :=
  ⟨by decide, (topic_binding_amended "hospital/1/ward/2/patient/7" "1_7").2 (by decide)⟩

/-- An encrypted envelope whose nonce decodes to 15 bytes. -/
def shortNonceEnvelope : Envelope :=
  { device_id := "1_7", hospital := "1", ward := "2", encrypted := true,
    ciphertext := some scenCiphertext, nonce := some (List.replicate 15 0) }

/-- The scenario envelope with one ciphertext bit flipped (a tampered
message whose decryption genuinely fails authentication). -/
def tamperedEnvelope : Envelope :=
  { device_id := "1_7", hospital := "1", ward := "2", encrypted := true,
    ciphertext := some (flipBit scenCiphertext 0 0), nonce := some scenNonce }

/-- C9 counterexample: the 15-byte-nonce rejection is recorded under the
same `auth_failed` reason label as a genuine authentication (tamper)
failure — the pipeline has no distinct `InvalidNonceOrKeyLength` reason. -/
theorem short_nonce_reason_not_distinct :
    on_mqtt_message true scenKey {} "hospital/1/ward/2/patient/7" shortNonceEnvelope =
      ({}, .rejected "auth_failed") ∧
    on_mqtt_message true scenKey {} "hospital/1/ward/2/patient/7" tamperedEnvelope =
      ({}, .rejected "auth_failed") :=
  ⟨rfl, rfl⟩

theorem on_mqtt_message_plain_dispatches (ca : Bool) (key : List Nat) (st : PipeState)
    (topic : String) (env : Envelope) (h : env.encrypted = false) :
    ∃ v1, (on_mqtt_message ca key st topic env).2 = .dispatched v1 := by
  rcases env with ⟨d, hs, w, e, c, n, v⟩
  cases e
  · exact ⟨_, rfl⟩
  · simp at h

/-- C9 (amended): an encrypted envelope whose nonce decodes to 15 bytes is
rejected via the nonce-length `ValueError` from `AsconCrypto.decrypt`,
recorded under the `auth_failed` reason shared with authentication
failures rather than a distinct `InvalidNonceOrKeyLength` reason; the
handler returns normally with the pipeline state unchanged, so a
subsequent message is handled exactly as if the bad one had never
arrived, and a subsequent valid plaintext message is still dispatched. -/
theorem short_nonce_rejected_loop_continues (key : List Nat) (st : PipeState)
    (topic : String) (env env2 : Envelope) (ct n : List Nat)
    (henc : env.encrypted = true) (hct : env.ciphertext = some ct)
    (hn : env.nonce = some n) (hlen : n.length = 15)
    (henc2 : env2.encrypted = false) :
    on_mqtt_message true key st topic env = (st, .rejected "auth_failed") ∧
    on_mqtt_message true key (on_mqtt_message true key st topic env).1 topic env2 =
      on_mqtt_message true key st topic env2 ∧
    ∃ v1, (on_mqtt_message true key st topic env2).2 = .dispatched v1 := by
  have h1 : on_mqtt_message true key st topic env = (st, .rejected "auth_failed") := by
    simp [on_mqtt_message, henc, hct, hn, asconCryptoDecrypt, hlen]
  exact ⟨h1, by rw [h1], on_mqtt_message_plain_dispatches true key st topic env2 henc2⟩

/-- A valid plaintext envelope on the scenario topic. -/
def plainEnvelope : Envelope :=
  { device_id := "1_7", hospital := "1", ward := "2", encrypted := false,
    vitals := some [("heart_rate", JVal.int 80)] }

/-- Witness for C9: the concrete 15-byte-nonce envelope followed by a
valid plaintext message on the same topic. -/
theorem short_nonce_rejected_loop_continues_witness :
    shortNonceEnvelope.encrypted = true ∧
    shortNonceEnvelope.nonce = some (List.replicate 15 0) ∧
    (List.replicate 15 0 : List Nat).length = 15 ∧
    plainEnvelope.encrypted = false ∧
    (on_mqtt_message true scenKey {} "hospital/1/ward/2/patient/7" shortNonceEnvelope =
      ({}, .rejected "auth_failed") ∧
    on_mqtt_message true scenKey
        (on_mqtt_message true scenKey {} "hospital/1/ward/2/patient/7" shortNonceEnvelope).1
        "hospital/1/ward/2/patient/7" plainEnvelope =
      on_mqtt_message true scenKey {} "hospital/1/ward/2/patient/7" plainEnvelope ∧
    ∃ v1, (on_mqtt_message true scenKey {} "hospital/1/ward/2/patient/7" plainEnvelope).2 =
      .dispatched v1) :=
  ⟨rfl, rfl, by decide, rfl,
    short_nonce_rejected_loop_continues scenKey {} "hospital/1/ward/2/patient/7"
      shortNonceEnvelope plainEnvelope scenCiphertext (List.replicate 15 0)
      rfl rfl rfl (by decide) rfl⟩

/-- C10: under the shipped codec the simulator's publish path always falls
back to plaintext: `AsconCrypto.encrypt` returns exactly the
(ciphertext, nonce) pair it is defined to return, the three-name unpack
of that pair raises, and the except-branch publishes an envelope with
`encrypted=False` carrying the plaintext vitals — never an
`encrypted=True` envelope. -/
theorem simulator_always_publishes_plain (key nonce : List Nat)
    (device_id hospital ward : String) (vitals : Payload)
    (hn : nonce.length = 16) :
    asconCryptoEncrypt key vitals nonce =
      .ok (asconEncrypt key nonce [] (jsonDumps vitals), nonce) ∧
    publish_encrypted_vitals true key nonce device_id hospital ward vitals =
      { device_id := device_id, hospital := hospital, ward := ward,
        encrypted := false, vitals := some vitals } := by
  constructor
  · simp [asconCryptoEncrypt, hn]
  · simp [publish_encrypted_vitals, asconCryptoEncrypt, hn, unpack3]

/-- Witness for C10 at concrete inputs. -/
theorem simulator_always_publishes_plain_witness :
    wNonce.length = 16 ∧
    (asconCryptoEncrypt wKey wPayload wNonce =
      .ok (asconEncrypt wKey wNonce [] (jsonDumps wPayload), wNonce) ∧
    publish_encrypted_vitals true wKey wNonce "1_7" "1" "2" wPayload =
      { device_id := "1_7", hospital := "1", ward := "2",
        encrypted := false, vitals := some wPayload }) :=
  ⟨by decide,
    simulator_always_publishes_plain wKey wNonce "1_7" "1" "2" wPayload (by decide)⟩


end CryptoProject
